import Mathlib

/-!
Verification of the shard-merge / CSV core of the hackernews-top repository
(`csv_io.py`).  Python strings are modelled as `List Char`; a file produced by
`readlines()` is a `List Str` of raw lines; the in-memory Python `dict` is an
association list with in-place overwrite (`dinsert`), which reproduces the
key set and per-key value of the real dict exactly.
-/

namespace CsvCore

/-- Python strings are modelled as lists of characters. -/
abbrev Str := List Char

/-- Coerce a Lean string literal to the `List Char` model. -/
def sToL (s : String) : Str := s.data

/-- The characters stripped by Python `str.strip()` (ASCII whitespace). -/
def pyIsSpace (c : Char) : Bool :=
  c == ' ' || c == '\t' || c == '\n' || c == '\r' ||
    c == Char.ofNat 11 || c == Char.ofNat 12

/-- Python `line.strip()`: drop leading and trailing whitespace. -/
def pyStrip (s : Str) : Str :=
  ((s.dropWhile pyIsSpace).reverse.dropWhile pyIsSpace).reverse

/-- Python `s.split(',')`: split on every comma; `''.split(',') == ['']`,
and empty fields are kept. -/
def splitComma : Str → List Str
  | [] => [[]]
  | c :: cs =>
    if c = ',' then [] :: splitComma cs
    else
      match splitComma cs with
      | [] => [[c]]
      | p :: ps => (c :: p) :: ps

/-- Python `','.join(ps)`. -/
def joinComma : List Str → Str
  | [] => []
  | [p] => p
  | p :: q :: ps => p ++ ',' :: joinComma (q :: ps)

/-- `CsvIo.remove_quotes`: `text.replace('"','')` deletes every double quote. -/
def remove_quotes (t : Str) : Str := t.filter (fun c => c != '"')

/-- `CsvIo.remove_commas`: `text.replace(',','')` deletes every comma. -/
def remove_commas (t : Str) : Str := t.filter (fun c => c != ',')

/-- `CsvIo.remove_csv_chars`: remove quotes, then commas. -/
def remove_csv_chars (t : Str) : Str := remove_commas (remove_quotes t)

/-- The shared encoding step of `story_to_csv` and `user_to_csv`:
sanitize every column with `remove_csv_chars`, then `','.join` them. -/
def record_to_csv (cols : List Str) : Str :=
  joinComma (cols.map remove_csv_chars)

/-- Python `dict` assignment `d[k] = v` on an association list: overwrite the
value in place if the key is present, otherwise append the new binding. -/
def dinsert {β : Type} : List (Str × β) → Str → β → List (Str × β)
  | [], k, v => [(k, v)]
  | (k', v') :: rest, k, v =>
    if k' = k then (k', v) :: rest else (k', v') :: dinsert rest k v

/-- Python `dict` lookup `d[k]` on the association-list model. -/
def dlookup {β : Type} : List (Str × β) → Str → Option β
  | [], _ => none
  | (k', v') :: rest, k => if k' = k then some v' else dlookup rest k

/-- Errors that can escape `concat_csv`: the wrapped walk failure
(`raise CsvIoError(e)`) and the uncaught `IndexError` from
`split_line[sort_col]`. -/
inductive MergeError : Type
  | csvIoError (msg : Str)
  | indexError
  deriving DecidableEq

instance exceptDecEq {ε α : Type} [DecidableEq ε] [DecidableEq α] :
    DecidableEq (Except ε α)
  | .error a, .error b =>
    if h : a = b then .isTrue (by rw [h]) else .isFalse (by simp [h])
  | .error _, .ok _ => .isFalse (by simp)
  | .ok _, .error _ => .isFalse (by simp)
  | .ok a, .ok b =>
    if h : a = b then .isTrue (by rw [h]) else .isFalse (by simp [h])

/-- The composite-key computation of `concat_csv` for one split line:
`primary_key = split_line[sort_col]` (an `IndexError`, modelled as `none`,
if out of range), then for each `z in range(cols)`, skip volatile columns
and append `split_line[z]` whenever `z != sort_col`. -/
def line_key (sort_col : Nat) (volatile_cols : List Nat) (split_line : List Str) :
    Option Str :=
  (split_line.get? sort_col).map (fun pk =>
    (List.range split_line.length).foldl
      (fun acc z =>
        if z ∈ volatile_cols then acc
        else if z ≠ sort_col then acc ++ split_line.getD z [] else acc) pk)

/-- Process one data line of a shard into the aggregate table
(`csv_lines[primary_key] = stripped_line`). -/
def process_line (sort_col : Nat) (volatile_cols : List Nat)
    (csv_lines : List (Str × Str)) (line : Str) :
    Except MergeError (List (Str × Str)) :=
  let stripped_line := pyStrip line
  let split_line := splitComma stripped_line
  match line_key sort_col volatile_cols split_line with
  | none => .error .indexError
  | some k => .ok (dinsert csv_lines k stripped_line)

/-- The inner `for line in f.readlines()` loop over the data lines of one
shard (the header was already skipped). -/
def fold_lines (sort_col : Nat) (volatile_cols : List Nat) :
    List (Str × Str) → List Str → Except MergeError (List (Str × Str))
  | t, [] => .ok t
  | t, line :: rest =>
    match process_line sort_col volatile_cols t line with
    | .error err => .error err
    | .ok t' => fold_lines sort_col volatile_cols t' rest

/-- Process one shard file: skip the first (header) line, then fold the
data lines into the table. -/
def process_file (sort_col : Nat) (volatile_cols : List Nat)
    (t : List (Str × Str)) (lines : List Str) :
    Except MergeError (List (Str × Str)) :=
  fold_lines sort_col volatile_cols t (lines.drop 1)

/-- The outer `for csv in csvs` loop of `concat_csv`. -/
def fold_files (sort_col : Nat) (volatile_cols : List Nat) :
    List (Str × Str) → List (List Str) → Except MergeError (List (Str × Str))
  | t, [] => .ok t
  | t, f :: rest =>
    match process_file sort_col volatile_cols t f with
    | .error err => .error err
    | .ok t' => fold_files sort_col volatile_cols t' rest

/-- The whole table-building phase of `concat_csv`, starting from the empty
dict `csv_lines = {}`. -/
def merge_table (sort_col : Nat) (volatile_cols : List Nat)
    (files : List (List Str)) : Except MergeError (List (Str × Str)) :=
  fold_files sort_col volatile_cols [] files

/-- Lexicographic `<=` on strings, as Python `sorted` compares them. -/
def strLe : Str → Str → Bool
  | [], _ => true
  | _ :: _, [] => false
  | a :: as, b :: bs =>
    if a < b then true else if b < a then false else strLe as bs

/-- `sorted_keys = sorted(csv_lines.keys())`. -/
def sorted_keys (t : List (Str × Str)) : List Str :=
  (t.map Prod.fst).mergeSort strLe

/-- `sorted_lines = [csv_lines[k] for k in sorted_keys]`. -/
def sorted_lines (t : List (Str × Str)) : List Str :=
  (sorted_keys t).map (fun k => (dlookup t k).getD [])

/-- A file on disk, as `recursive_walk` sees it: a basename and the raw
lines `readlines()` would return. -/
structure CsvFile where
  name : Str
  lines : List Str

def ext_csv : Str := sToL ".csv"
def users_aggregate : Str := sToL "all_users.csv"
def stories_aggregate : Str := sToL "all_stories.csv"

/-- `self.ignore = [all_users.csv, all_stories.csv]`. -/
def ignore : List Str := [users_aggregate, stories_aggregate]

/-- Python `needle in hay` substring test. -/
def containsSub (needle hay : Str) : Bool :=
  hay.tails.any (fun t => needle.isPrefixOf t)

/-- `CsvIo.recursive_walk`: keep a file iff its name contains `.csv` and is
not one of the two aggregate outputs. -/
def recursive_walk (files : List CsvFile) : List CsvFile :=
  files.filter (fun f =>
    containsSub ext_csv f.name && !(decide (f.name ∈ ignore)))

/-- The byte content of the written aggregate file: the header string
(which carries its own newline), then each sorted line followed by a
newline. -/
def file_content (header : Str) (lines : List Str) : Str :=
  header ++ (lines.map (fun u => u ++ ['\n'])).flatten

/-- `CsvIo.concat_csv`.  The directory listing is the result of the
filesystem walk, which is external and may fail: `.error e` models
`recursive_walk` raising `IOError(e)`, which the `try/except` turns into
`CsvIoError(e)` before anything is written.  On success the result is the
full byte content of the written aggregate file together with the returned
row count `wrote`. -/
def concat_csv (fs_result : Except Str (List CsvFile)) (out header : Str)
    (sort_col : Nat) (volatile_cols : List Nat) :
    Except MergeError (Str × Nat) :=
  match fs_result with
  | .error e => .error (.csvIoError e)
  | .ok fs =>
    let csvs := recursive_walk fs
    match merge_table sort_col volatile_cols (csvs.map CsvFile.lines) with
    | .error err => .error err
    | .ok t =>
      let ls := sorted_lines t
      .ok (file_content header ls, ls.length)

def users_header : Str := sToL "ID,KARMA,CREATED,SUBMISSIONS\n"
def stories_header : Str := sToL "SCORE,TITLE,BY,URL\n"

/-- `CsvIo.concat_users`: identity column 0, volatile columns 1 and 3. -/
def concat_users (fs_result : Except Str (List CsvFile)) :
    Except MergeError (Str × Nat) :=
  concat_csv fs_result users_aggregate users_header 0 [1, 3]

/-- `CsvIo.concat_stories`: identity column 3, volatile columns 0 and 1. -/
def concat_stories (fs_result : Except Str (List CsvFile)) :
    Except MergeError (Str × Nat) :=
  concat_csv fs_result stories_aggregate stories_header 3 [0, 1]

/-- The loop body of `get_all_users`: every line of the file, header
included, contributes `users[line.split(',')[0]] = line.split(',')[0]`. -/
def users_fold : List (Str × Str) → List Str → List (Str × Str)
  | users, [] => users
  | users, line :: rest =>
    users_fold
      (dinsert users ((splitComma line).getD 0 []) ((splitComma line).getD 0 []))
      rest

/-- `CsvIo.get_all_users` on the lines of the users aggregate file.  Note:
the source has no header skip here. -/
def get_all_users (lines : List Str) : List (Str × Str) :=
  users_fold [] lines

/-- The loop body of `get_all_users_full`:
`users[line.split(',')[0]] = [l.strip() for l in line.split(',')]`. -/
def users_full_fold : List (Str × List Str) → List Str → List (Str × List Str)
  | users, [] => users
  | users, line :: rest =>
    users_full_fold
      (dinsert users ((splitComma line).getD 0 []) ((splitComma line).map pyStrip))
      rest

/-- `CsvIo.get_all_users_full`: the `n == 1` guard skips exactly the first
line. -/
def get_all_users_full (lines : List Str) : List (Str × List Str) :=
  users_full_fold [] (lines.drop 1)

/-- The loop body of `get_all_stories`: `line.split(',')[1]` raises an
`IndexError` (modelled as `none`) on a line with fewer than two columns;
otherwise `stories[title] = [l.strip() for l in line.split(',')]`. -/
def stories_fold : List (Str × List Str) → List Str →
    Option (List (Str × List Str))
  | stories, [] => some stories
  | stories, line :: rest =>
    match (splitComma line).get? 1 with
    | none => none
    | some story_title =>
      stories_fold
        (dinsert stories story_title ((splitComma line).map pyStrip)) rest

/-- `CsvIo.get_all_stories` on the lines of the stories aggregate file.
Note: the source has no header skip here. -/
def get_all_stories (lines : List Str) : Option (List (Str × List Str)) :=
  stories_fold [] lines

/-- The composite key `concat_csv` computes for a raw shard line (defined
whenever the identity column exists). -/
def key_of (sort_col : Nat) (volatile_cols : List Nat) (line : Str) : Str :=
  (line_key sort_col volatile_cols (splitComma (pyStrip line))).getD []

/-- A data line on which `split_line[sort_col]` does not raise. -/
def good_line (sort_col : Nat) (line : Str) : Prop :=
  sort_col < (splitComma (pyStrip line)).length

instance (sort_col : Nat) (line : Str) : Decidable (good_line sort_col line) :=
  Nat.decLt _ _

/-- The pure (error-free) table accumulation over a list of data lines. -/
def table_fold (sort_col : Nat) (volatile_cols : List Nat) :
    List (Str × Str) → List Str → List (Str × Str)
  | t, [] => t
  | t, line :: rest =>
    table_fold sort_col volatile_cols
      (dinsert t (key_of sort_col volatile_cols line) (pyStrip line)) rest

/-- All data lines of all shard files have an identity column. -/
def all_good (sort_col : Nat) (files : List (List Str)) : Prop :=
  ∀ f ∈ files, ∀ l ∈ f.drop 1, good_line sort_col l

/-- Test fixture: a users shard whose one row is `alice,10,2024-01-01,2`. -/
def fileA : List Str :=
  [sToL "ID,KARMA,CREATED,SUBMISSIONS\n", sToL "alice,10,2024-01-01,2\n"]

/-- Test fixture: a users shard whose one row is `alice,99,2024-01-01,5`. -/
def fileB : List Str :=
  [sToL "ID,KARMA,CREATED,SUBMISSIONS\n", sToL "alice,99,2024-01-01,5\n"]

/-- Test fixture: the lines of a two-row users aggregate file (header plus
one data row). -/
def usersAggLines : List Str :=
  [sToL "ID,KARMA,CREATED,SUBMISSIONS\n", sToL "alice,10,2024-01-01,2\n"]

/-- Test fixture: the lines of a stories aggregate file (header plus one
data row). -/
def storiesAggLines : List Str :=
  [sToL "SCORE,TITLE,BY,URL\n", sToL "5,Title A,by1,http://x\n"]

/-- Test fixture: a stories shard with a malformed (two-column) data row. -/
def badStoriesFile : List Str :=
  [sToL "SCORE,TITLE,BY,URL\n", sToL "a,b\n"]

/-- Test fixture: a dated shard file carrying `fileA`. -/
def shardFileA : CsvFile := ⟨sToL "2014-10-14.csv", fileA⟩

/-- Test fixture: an aggregate output file as it would sit on disk after a
first merge run. -/
def aggFileU : CsvFile := ⟨users_aggregate, [users_header]⟩

/-- Test fixture: a directory containing one malformed stories shard. -/
def badShardFS : List CsvFile := [⟨sToL "2014-10-15.csv", badStoriesFile⟩]

end CsvCore

namespace CsvCore

/-! ### Basic lemmas about the string primitives -/

theorem splitComma_ne_nil (s : Str) : splitComma s ≠ [] := by
  induction s with
  | nil => simp [splitComma]
  | cons c cs ih =>
    simp only [splitComma]
    split
    · simp
    · cases h : splitComma cs with
      | nil => simp
      | cons p ps => simp

theorem splitComma_length_pos (s : Str) : 0 < (splitComma s).length :=
  List.length_pos.mpr (splitComma_ne_nil s)

theorem splitComma_comma_cons (s : Str) :
    splitComma (',' :: s) = [] :: splitComma s := by
  simp [splitComma]

theorem splitComma_append_of_no_comma (p : Str) (s : Str)
    (hp : ∀ c ∈ p, c ≠ ',') :
    splitComma (p ++ s) = (p ++ (splitComma s).headD []) :: (splitComma s).tail := by
  induction p with
  | nil =>
    cases h : splitComma s with
    | nil => exact absurd h (splitComma_ne_nil s)
    | cons q qs => simp [h]
  | cons c cs ih =>
    have hc : c ≠ ',' := hp c (by simp)
    have ih' := ih (fun d hd => hp d (by simp [hd]))
    simp only [List.cons_append, splitComma, if_neg hc, List.append_eq]
    rw [ih']

theorem splitComma_of_no_comma (p : Str) (hp : ∀ c ∈ p, c ≠ ',') :
    splitComma p = [p] := by
  have h := splitComma_append_of_no_comma p [] hp
  simpa [splitComma] using h

theorem splitComma_joinComma (ps : List Str) (hne : ps ≠ [])
    (h : ∀ p ∈ ps, ∀ c ∈ p, c ≠ ',') :
    splitComma (joinComma ps) = ps := by
  induction ps with
  | nil => exact absurd rfl hne
  | cons p ps ih =>
    cases ps with
    | nil => exact splitComma_of_no_comma p (h p (by simp))
    | cons q qs =>
      have hjoin : joinComma (p :: q :: qs) = p ++ ',' :: joinComma (q :: qs) := rfl
      rw [hjoin, splitComma_append_of_no_comma p _ (h p (by simp)),
        splitComma_comma_cons, ih (by simp) (fun r hr => h r (by simp [hr]))]
      simp

theorem mem_joinComma {c : Char} :
    ∀ {ps : List Str}, c ∈ joinComma ps → c = ',' ∨ ∃ p ∈ ps, c ∈ p
  | [], h => by simp [joinComma] at h
  | [p], h => by
    have hcp : c ∈ p := by simpa [joinComma] using h
    exact Or.inr ⟨p, by simp, hcp⟩
  | p :: q :: ps, h => by
    rw [show joinComma (p :: q :: ps) = p ++ ',' :: joinComma (q :: ps) from rfl] at h
    rcases List.mem_append.mp h with h1 | h2
    · exact Or.inr ⟨p, by simp, h1⟩
    · rcases List.mem_cons.mp h2 with h3 | h4
      · exact Or.inl h3
      · rcases mem_joinComma h4 with h5 | ⟨r, hr, hcr⟩
        · exact Or.inl h5
        · exact Or.inr ⟨r, by simp [hr], hcr⟩

theorem mem_remove_csv_chars {c : Char} {t : Str} (h : c ∈ remove_csv_chars t) :
    c ∈ t ∧ c ≠ ',' ∧ c ≠ '"' := by
  unfold remove_csv_chars remove_commas remove_quotes at h
  rcases List.mem_filter.mp h with ⟨h1, h2⟩
  rcases List.mem_filter.mp h1 with ⟨h3, h4⟩
  refine ⟨h3, by simpa using h2, by simpa using h4⟩

theorem remove_csv_chars_eq_filter (t : Str) :
    remove_csv_chars t = t.filter (fun c => c != ',' && c != '"') := by
  unfold remove_csv_chars remove_commas remove_quotes
  rw [List.filter_filter]

/-! ### Lemmas about the dict model -/

theorem mem_map_fst_dinsert {β : Type} (k : Str) (v : β) (x : Str) :
    ∀ (t : List (Str × β)),
      (x ∈ (dinsert t k v).map Prod.fst ↔ x ∈ t.map Prod.fst ∨ x = k)
  | [] => by simp [dinsert]
  | (k', v') :: rest => by
    by_cases h : k' = k
    · subst h
      simp only [dinsert, if_pos rfl, if_true, List.map_cons, List.mem_cons]
      tauto
    · simp only [dinsert, if_neg h, List.map_cons, List.mem_cons,
        mem_map_fst_dinsert k v x rest]
      tauto

theorem nodup_map_fst_dinsert {β : Type} (k : Str) (v : β) :
    ∀ (t : List (Str × β)), (t.map Prod.fst).Nodup →
      ((dinsert t k v).map Prod.fst).Nodup
  | [], _ => by simp [dinsert]
  | (k', v') :: rest, h => by
    simp only [List.map_cons, List.nodup_cons] at h
    by_cases hk : k' = k
    · subst hk
      simp only [dinsert, if_pos rfl, if_true, List.map_cons, List.nodup_cons]
      exact h
    · simp only [dinsert, if_neg hk, List.map_cons, List.nodup_cons]
      refine ⟨fun hmem => ?_, nodup_map_fst_dinsert k v rest h.2⟩
      rcases (mem_map_fst_dinsert k v k' rest).mp hmem with h1 | h2
      · exact h.1 h1
      · exact hk h2

theorem dlookup_dinsert_self {β : Type} (k : Str) (v : β) :
    ∀ (t : List (Str × β)), dlookup (dinsert t k v) k = some v
  | [] => by simp [dinsert, dlookup]
  | (k', v') :: rest => by
    by_cases h : k' = k
    · subst h
      simp [dinsert, dlookup]
    · simp [dinsert, dlookup, if_neg h, dlookup_dinsert_self k v rest]

theorem mem_dinsert {β : Type} (k : Str) (v : β) (p : Str × β) :
    ∀ (t : List (Str × β)), p ∈ dinsert t k v → p = (k, v) ∨ p ∈ t
  | [] => by simp [dinsert]
  | (k', v') :: rest => by
    by_cases h : k' = k
    · subst h
      intro hp
      rcases List.mem_cons.mp (by simpa [dinsert] using hp) with h1 | h2
      · exact Or.inl (by simp [h1])
      · exact Or.inr (by simp [h2])
    · intro hp
      rcases List.mem_cons.mp (by simpa [dinsert, if_neg h] using hp) with h1 | h2
      · exact Or.inr (by simp [h1])
      · rcases mem_dinsert k v p rest h2 with h3 | h4
        · exact Or.inl h3
        · exact Or.inr (by simp [h4])

/-! ### The lexicographic order used by `sorted` -/

theorem strLe_cons_iff {a b : Char} {as bs : Str} :
    strLe (a :: as) (b :: bs) = true ↔ a < b ∨ (a = b ∧ strLe as bs = true) := by
  simp only [strLe]
  rcases lt_trichotomy a b with h | h | h
  · simp [h]
  · subst h
    simp [lt_irrefl]
  · simp [lt_asymm h, h, ne_of_gt h]

theorem strLe_total : ∀ (a b : Str), (strLe a b || strLe b a) = true
  | [], _ => by simp [strLe]
  | _ :: _, [] => by simp [strLe]
  | a :: as, b :: bs => by
    rcases lt_trichotomy a b with h | h | h
    · simp [strLe, h]
    · subst h
      simpa [strLe, lt_irrefl] using strLe_total as bs
    · simp [strLe, h, lt_asymm h]

theorem strLe_trans : ∀ (a b c : Str),
    strLe a b = true → strLe b c = true → strLe a c = true
  | [], _, _, _, _ => by simp [strLe]
  | _ :: _, [], _, h1, _ => by simp [strLe] at h1
  | _ :: _, _ :: _, [], _, h2 => by simp [strLe] at h2
  | a :: as, b :: bs, c :: cs, h1, h2 => by
    rcases strLe_cons_iff.mp h1 with hab | ⟨rfl, hab⟩ <;>
      rcases strLe_cons_iff.mp h2 with hbc | ⟨heq, hbc⟩
    · exact strLe_cons_iff.mpr (Or.inl (lt_trans hab hbc))
    · exact strLe_cons_iff.mpr (Or.inl (heq ▸ hab))
    · exact strLe_cons_iff.mpr (Or.inl hbc)
    · exact strLe_cons_iff.mpr (Or.inr ⟨heq, strLe_trans as bs cs hab hbc⟩)

theorem strLe_antisymm : ∀ (a b : Str),
    strLe a b = true → strLe b a = true → a = b
  | [], [], _, _ => rfl
  | [], _ :: _, _, h2 => by simp [strLe] at h2
  | _ :: _, [], h1, _ => by simp [strLe] at h1
  | a :: as, b :: bs, h1, h2 => by
    rcases strLe_cons_iff.mp h1 with hab | ⟨rfl, hab⟩
    · rcases strLe_cons_iff.mp h2 with hba | ⟨heq, _⟩
      · exact absurd hba (lt_asymm hab)
      · exact absurd hab (by simp [heq])
    · rcases strLe_cons_iff.mp h2 with hba | ⟨_, hba⟩
      · exact absurd hba (lt_irrefl _)
      · rw [strLe_antisymm as bs hab hba]

/-- Sorting with `strLe` maps permuted inputs to the same output list. -/
theorem mergeSort_strLe_eq_of_perm {l1 l2 : List Str} (h : l1.Perm l2) :
    l1.mergeSort strLe = l2.mergeSort strLe := by
  refine @List.eq_of_perm_of_sorted Str (fun a b => strLe a b = true)
    ⟨fun a b h1 h2 => strLe_antisymm a b h1 h2⟩ _ _
    (((List.mergeSort_perm l1 strLe).trans h).trans
      (List.mergeSort_perm l2 strLe).symm) ?_ ?_
  · exact List.sorted_mergeSort (fun a b c => strLe_trans a b c)
      (fun a b => strLe_total a b) l1
  · exact List.sorted_mergeSort (fun a b c => strLe_trans a b c)
      (fun a b => strLe_total a b) l2

/-! ### Characterizing the merge pipeline -/

theorem line_key_eq_none_iff (c : Nat) (v : List Nat) (sl : List Str) :
    line_key c v sl = none ↔ sl.length ≤ c := by
  unfold line_key
  rw [Option.map_eq_none']
  exact List.get?_eq_none

theorem process_line_ok (c : Nat) (v : List Nat) (t : List (Str × Str))
    (line : Str) (h : good_line c line) :
    process_line c v t line = .ok (dinsert t (key_of c v line) (pyStrip line)) := by
  cases hk : line_key c v (splitComma (pyStrip line)) with
  | none =>
    have hlen := (line_key_eq_none_iff c v _).mp hk
    unfold good_line at h
    omega
  | some k =>
    simp [process_line, key_of, hk]

theorem process_line_err (c : Nat) (v : List Nat) (t : List (Str × Str))
    (line : Str) (h : ¬ good_line c line) :
    process_line c v t line = .error .indexError := by
  have hk : line_key c v (splitComma (pyStrip line)) = none :=
    (line_key_eq_none_iff c v _).mpr (by unfold good_line at h; omega)
  simp [process_line, hk]

theorem fold_lines_ok (c : Nat) (v : List Nat) :
    ∀ (lines : List Str) (t : List (Str × Str)),
      (∀ l ∈ lines, good_line c l) →
      fold_lines c v t lines = .ok (table_fold c v t lines)
  | [], _, _ => rfl
  | line :: rest, t, h => by
    simp only [fold_lines, process_line_ok c v t line (h line (by simp)),
      table_fold]
    exact fold_lines_ok c v rest _ (fun l hl => h l (by simp [hl]))

theorem fold_lines_err (c : Nat) (v : List Nat) :
    ∀ (lines : List Str) (t : List (Str × Str)),
      (∃ l ∈ lines, ¬ good_line c l) →
      fold_lines c v t lines = .error .indexError
  | [], _, h => by simp at h
  | line :: rest, t, h => by
    by_cases hg : good_line c line
    · simp only [fold_lines, process_line_ok c v t line hg]
      apply fold_lines_err c v rest
      rcases h with ⟨l, hl, hbad⟩
      rcases List.mem_cons.mp hl with rfl | hmem
      · exact absurd hg hbad
      · exact ⟨l, hmem, hbad⟩
    · simp only [fold_lines, process_line_err c v t line hg]

theorem table_fold_append (c : Nat) (v : List Nat) :
    ∀ (xs ys : List Str) (t : List (Str × Str)),
      table_fold c v t (xs ++ ys) = table_fold c v (table_fold c v t xs) ys
  | [], _, _ => rfl
  | x :: xs, ys, t => by
    simp only [List.cons_append, table_fold]
    exact table_fold_append c v xs ys _

theorem fold_files_ok (c : Nat) (v : List Nat) :
    ∀ (files : List (List Str)) (t : List (Str × Str)),
      (∀ f ∈ files, ∀ l ∈ f.drop 1, good_line c l) →
      fold_files c v t files =
        .ok (table_fold c v t (files.flatMap (fun f => f.drop 1)))
  | [], _, _ => rfl
  | f :: rest, t, h => by
    simp only [fold_files, process_file,
      fold_lines_ok c v (f.drop 1) t (h f (by simp)),
      List.flatMap_cons, table_fold_append]
    exact fold_files_ok c v rest _ (fun g hg l hl => h g (by simp [hg]) l hl)

theorem fold_files_err (c : Nat) (v : List Nat) :
    ∀ (files : List (List Str)) (t : List (Str × Str)),
      (∃ f ∈ files, ∃ l ∈ f.drop 1, ¬ good_line c l) →
      fold_files c v t files = .error .indexError
  | [], _, h => by simp at h
  | f :: rest, t, h => by
    by_cases hg : ∀ l ∈ f.drop 1, good_line c l
    · simp only [fold_files, process_file, fold_lines_ok c v (f.drop 1) t hg]
      apply fold_files_err c v rest
      rcases h with ⟨g, hgmem, l, hl, hbad⟩
      rcases List.mem_cons.mp hgmem with rfl | hmem
      · exact absurd (hg l hl) hbad
      · exact ⟨g, hmem, l, hl, hbad⟩
    · push_neg at hg
      simp only [fold_files, process_file]
      rw [fold_lines_err c v (f.drop 1) t hg]

theorem merge_table_ok (c : Nat) (v : List Nat) (files : List (List Str))
    (h : all_good c files) :
    merge_table c v files =
      .ok (table_fold c v [] (files.flatMap (fun f => f.drop 1))) :=
  fold_files_ok c v files [] h

theorem merge_table_err (c : Nat) (v : List Nat) (files : List (List Str))
    (h : ¬ all_good c files) :
    merge_table c v files = .error .indexError := by
  apply fold_files_err
  unfold all_good at h
  push_neg at h
  exact h

theorem merge_table_isOk_iff (c : Nat) (v : List Nat) (files : List (List Str)) :
    (∃ t, merge_table c v files = .ok t) ↔ all_good c files := by
  by_cases h : all_good c files
  · exact ⟨fun _ => h, fun _ => ⟨_, merge_table_ok c v files h⟩⟩
  · constructor
    · rintro ⟨t, ht⟩
      rw [merge_table_err c v files h] at ht
      cases ht
    · intro h'
      exact absurd h' h

theorem mem_map_fst_table_fold (c : Nat) (v : List Nat) :
    ∀ (lines : List Str) (t : List (Str × Str)) (x : Str),
      (x ∈ (table_fold c v t lines).map Prod.fst ↔
        x ∈ t.map Prod.fst ∨ x ∈ lines.map (key_of c v))
  | [], t, x => by simp [table_fold]
  | line :: rest, t, x => by
    simp only [table_fold, mem_map_fst_table_fold c v rest _ x,
      mem_map_fst_dinsert, List.map_cons, List.mem_cons]
    tauto

theorem nodup_map_fst_table_fold (c : Nat) (v : List Nat) :
    ∀ (lines : List Str) (t : List (Str × Str)),
      (t.map Prod.fst).Nodup → ((table_fold c v t lines).map Prod.fst).Nodup
  | [], _, h => h
  | line :: rest, t, h =>
    nodup_map_fst_table_fold c v rest _ (nodup_map_fst_dinsert _ _ t h)

/-! ### The composite key as a filtered concatenation -/

theorem key_foldl_eq (c : Nat) (v : List Nat) (sl : List Str) :
    ∀ (l : List Nat) (acc : Str),
      l.foldl (fun acc z =>
        if z ∈ v then acc
        else if z ≠ c then acc ++ sl.getD z [] else acc) acc
      = acc ++ ((l.filter (fun z => decide (z ∉ v) && decide (z ≠ c))).map
          (fun z => sl.getD z [])).flatten
  | [], acc => by simp
  | z :: l, acc => by
    simp only [List.foldl_cons, List.filter_cons]
    by_cases hv : z ∈ v
    · rw [if_pos hv, key_foldl_eq c v sl l acc]
      simp [hv]
    · by_cases hc : z = c
      · subst hc
        rw [if_neg hv, if_neg (by simp), key_foldl_eq z v sl l acc]
        simp [hv]
      · rw [if_neg hv, if_pos hc, key_foldl_eq c v sl l (acc ++ sl.getD z [])]
        simp [hv, hc, List.append_assoc]

theorem line_key_eq_some (c : Nat) (v : List Nat) (sl : List Str)
    (h : c < sl.length) :
    line_key c v sl = some (sl.getD c [] ++
      (((List.range sl.length).filter
          (fun z => decide (z ∉ v) && decide (z ≠ c))).map
        (fun z => sl.getD z [])).flatten) := by
  unfold line_key
  rw [List.get?_eq_getElem?, List.getElem?_eq_getElem h]
  rw [Option.map_some']
  rw [key_foldl_eq c v sl (List.range sl.length) _]
  have : sl.getD c [] = sl[c] := by
    rw [List.getD_eq_getElem?_getD, List.getElem?_eq_getElem h]
    rfl
  rw [this]

/-! ### The walk and the readers -/

theorem recursive_walk_append_ignored (fs : List CsvFile) (agg : CsvFile)
    (h : agg.name ∈ ignore) :
    recursive_walk (fs ++ [agg]) = recursive_walk fs := by
  unfold recursive_walk
  rw [List.filter_append]
  have hfalse : (containsSub ext_csv agg.name && !(decide (agg.name ∈ ignore))) = false := by
    simp [h]
  simp [hfalse]

theorem mem_map_fst_users_fold :
    ∀ (lines : List Str) (t : List (Str × Str)) (x : Str),
      (x ∈ (users_fold t lines).map Prod.fst ↔
        x ∈ t.map Prod.fst ∨ x ∈ lines.map (fun l => (splitComma l).getD 0 []))
  | [], t, x => by simp [users_fold]
  | line :: rest, t, x => by
    simp only [users_fold, mem_map_fst_users_fold rest _ x,
      mem_map_fst_dinsert, List.map_cons, List.mem_cons]
    tauto

theorem users_fold_self_map :
    ∀ (lines : List Str) (t : List (Str × Str)),
      (∀ p ∈ t, p.2 = p.1) → ∀ p ∈ users_fold t lines, p.2 = p.1
  | [], _, ht => ht
  | line :: rest, t, ht => by
    apply users_fold_self_map rest
    intro p hp
    rcases mem_dinsert _ _ p t hp with h1 | h2
    · simp [h1]
    · exact ht p h2

theorem stories_fold_some_mem :
    ∀ (lines : List Str) (t st : List (Str × List Str)),
      stories_fold t lines = some st →
      ∀ x, (x ∈ st.map Prod.fst ↔
        x ∈ t.map Prod.fst ∨ x ∈ lines.filterMap (fun l => (splitComma l).get? 1))
  | [], t, st, h, x => by
    cases h
    simp
  | line :: rest, t, st, h, x => by
    simp only [stories_fold] at h
    cases hk : (splitComma line).get? 1 with
    | none =>
      rw [hk] at h
      cases h
    | some k =>
      rw [hk] at h
      rw [List.filterMap_cons, hk]
      simp only [stories_fold_some_mem rest _ st h x,
        mem_map_fst_dinsert, List.mem_cons]
      tauto

/-! ### The claims -/

/-- C1: for every shard data line processed by the merge, the composite key
is the value at the identity index followed by, in ascending column-index
order, the value of every column that is neither the identity index nor
volatile, concatenated with no separator; and for the stories configuration
(identity 3, volatile 0 and 1) the two rows `5,Title A,by1,http://x` and
`7,Title A,by1,http://x` both yield the key `http://xby1`. -/
theorem C1_composite_key (c : Nat) (v : List Nat) (sl : List Str)
    (h : c < sl.length) :
    line_key c v sl = some (sl.getD c [] ++
      (((List.range sl.length).filter
          (fun z => decide (z ∉ v) && decide (z ≠ c))).map
        (fun z => sl.getD z [])).flatten) ∧
    key_of 3 [0, 1] (sToL "5,Title A,by1,http://x") = sToL "http://xby1" ∧
    key_of 3 [0, 1] (sToL "7,Title A,by1,http://x") = sToL "http://xby1" :=
  ⟨line_key_eq_some c v sl h, by decide, by decide⟩

theorem C1_witness :
    key_of 3 [0, 1] (sToL "5,Title A,by1,http://x") = sToL "http://xby1" :=
  (C1_composite_key 3 [0, 1]
    (splitComma (pyStrip (sToL "5,Title A,by1,http://x"))) (by decide)).2.1

/-- C2: inserting under an existing key overwrites the stored line
(last-write-wins), and in the two-user-shard scenario the rows
`alice,10,2024-01-01,2` and `alice,99,2024-01-01,5` (identity 0, volatile
1 and 3) both collapse to the key `alice2024-01-01`, so exactly one alice
row survives, equal to whichever shard was processed last. -/
theorem C2_last_write_wins :
    (∀ (t : List (Str × Str)) (k v : Str), dlookup (dinsert t k v) k = some v) ∧
    merge_table 0 [1, 3] [fileA, fileB] =
      .ok [(sToL "alice2024-01-01", sToL "alice,99,2024-01-01,5")] ∧
    merge_table 0 [1, 3] [fileB, fileA] =
      .ok [(sToL "alice2024-01-01", sToL "alice,10,2024-01-01,2")] :=
  ⟨fun t k v => dlookup_dinsert_self k v t, by decide, by decide⟩

/-- C3: on success `concat_csv` writes the header first and then one line
per distinct composite key in ascending key order, returning the number of
data rows written, which equals the number of distinct keys; with zero
shard files the output is just the header and the count is 0. -/
theorem C3_sorted_output (fs : List CsvFile) (out header : Str) (c : Nat)
    (v : List Nat) (t : List (Str × Str))
    (h : merge_table c v ((recursive_walk fs).map CsvFile.lines) = .ok t) :
    concat_csv (.ok fs) out header c v =
      .ok (file_content header (sorted_lines t), (sorted_lines t).length) ∧
    (sorted_lines t).length = t.length ∧
    (t.map Prod.fst).Nodup ∧
    (sorted_keys t).Perm (t.map Prod.fst) ∧
    (sorted_keys t).Pairwise (fun a b => strLe a b = true) ∧
    concat_csv (.ok []) out header c v = .ok (header, 0) := by
  have ag : all_good c ((recursive_walk fs).map CsvFile.lines) :=
    (merge_table_isOk_iff c v _).mp ⟨t, h⟩
  have e := merge_table_ok c v ((recursive_walk fs).map CsvFile.lines) ag
  have ht : t = table_fold c v []
      ((((recursive_walk fs).map CsvFile.lines).flatMap (fun f => f.drop 1))) :=
    Except.ok.inj (h.symm.trans e)
  refine ⟨?_, ?_, ?_, ?_, ?_, ?_⟩
  · simp [concat_csv, h]
  · calc (sorted_lines t).length = (sorted_keys t).length := List.length_map _ _
      _ = (t.map Prod.fst).length := (List.mergeSort_perm (t.map Prod.fst) strLe).length_eq
      _ = t.length := List.length_map _ _
  · rw [ht]
    exact nodup_map_fst_table_fold c v _ [] (by simp)
  · exact List.mergeSort_perm (t.map Prod.fst) strLe
  · exact List.sorted_mergeSort (fun a b d => strLe_trans a b d)
      (fun a b => strLe_total a b) (t.map Prod.fst)
  · simp [concat_csv, recursive_walk, merge_table, fold_files, sorted_lines,
      sorted_keys, file_content]

theorem C3_witness :
    concat_csv (.ok []) users_aggregate users_header 0 [1, 3] =
      .ok (users_header, 0) :=
  (C3_sorted_output [] users_aggregate users_header 0 [1, 3] []
    (by decide)).2.2.2.2.2

/-- C4: permuting the order in which shard files are discovered and
processed changes neither whether the merge succeeds nor the sorted key
sequence of the aggregate (hence neither the row count nor which key each
row position carries); only the surviving colliding line may differ. -/
theorem C4_discovery_order (c : Nat) (v : List Nat)
    (files1 files2 : List (List Str)) (hperm : files1.Perm files2) :
    ((∃ t, merge_table c v files1 = .ok t) ↔
      (∃ t, merge_table c v files2 = .ok t)) ∧
    ∀ t1 t2, merge_table c v files1 = .ok t1 →
      merge_table c v files2 = .ok t2 →
      sorted_keys t1 = sorted_keys t2 ∧
      (sorted_lines t1).length = (sorted_lines t2).length := by
  have hag : all_good c files1 ↔ all_good c files2 := by
    unfold all_good
    constructor
    · intro h f hf l hl
      exact h f (hperm.mem_iff.mpr hf) l hl
    · intro h f hf l hl
      exact h f (hperm.mem_iff.mp hf) l hl
  constructor
  · rw [merge_table_isOk_iff, merge_table_isOk_iff]
    exact hag
  · intro t1 t2 h1 h2
    have ag1 : all_good c files1 := (merge_table_isOk_iff c v files1).mp ⟨t1, h1⟩
    have ag2 : all_good c files2 := (merge_table_isOk_iff c v files2).mp ⟨t2, h2⟩
    have ht1 : t1 = table_fold c v [] (files1.flatMap (fun f => f.drop 1)) :=
      Except.ok.inj (h1.symm.trans (merge_table_ok c v files1 ag1))
    have ht2 : t2 = table_fold c v [] (files2.flatMap (fun f => f.drop 1)) :=
      Except.ok.inj (h2.symm.trans (merge_table_ok c v files2 ag2))
    have hnd1 : (t1.map Prod.fst).Nodup := by
      rw [ht1]
      exact nodup_map_fst_table_fold c v _ [] (by simp)
    have hnd2 : (t2.map Prod.fst).Nodup := by
      rw [ht2]
      exact nodup_map_fst_table_fold c v _ [] (by simp)
    have hmem : ∀ x, x ∈ t1.map Prod.fst ↔ x ∈ t2.map Prod.fst := by
      intro x
      rw [ht1, ht2, mem_map_fst_table_fold, mem_map_fst_table_fold]
      simp only [List.map_nil, List.not_mem_nil, false_or, List.mem_map,
        List.mem_flatMap]
      constructor
      · rintro ⟨l, ⟨f, hf, hl⟩, rfl⟩
        exact ⟨l, ⟨f, hperm.mem_iff.mp hf, hl⟩, rfl⟩
      · rintro ⟨l, ⟨f, hf, hl⟩, rfl⟩
        exact ⟨l, ⟨f, hperm.mem_iff.mpr hf, hl⟩, rfl⟩
    have hp : (t1.map Prod.fst).Perm (t2.map Prod.fst) :=
      (List.perm_ext_iff_of_nodup hnd1 hnd2).mpr hmem
    have hkeys : sorted_keys t1 = sorted_keys t2 :=
      mergeSort_strLe_eq_of_perm hp
    refine ⟨hkeys, ?_⟩
    unfold sorted_lines
    rw [hkeys, List.length_map, List.length_map]

theorem C4_witness :
    sorted_keys [(sToL "alice2024-01-01", sToL "alice,99,2024-01-01,5")] =
      sorted_keys [(sToL "alice2024-01-01", sToL "alice,10,2024-01-01,2")] :=
  (((C4_discovery_order 0 [1, 3] [fileA, fileB] [fileB, fileA]
      (List.Perm.swap fileB fileA [])).2
    [(sToL "alice2024-01-01", sToL "alice,99,2024-01-01,5")]
    [(sToL "alice2024-01-01", sToL "alice,10,2024-01-01,2")]
    (by decide) (by decide)).1)

/-- C5: a second merge run over the same shard set plus the aggregate file
written by the first run (whose name is in the walk's ignore list, so it is
excluded from discovery) produces exactly the same aggregate file content
and row count. -/
theorem C5_idempotent (fs : List CsvFile) (agg : CsvFile) (out header : Str)
    (c : Nat) (v : List Nat) (hagg : agg.name ∈ ignore) :
    concat_csv (.ok (fs ++ [agg])) out header c v =
      concat_csv (.ok fs) out header c v := by
  have hw := recursive_walk_append_ignored fs agg hagg
  simp only [concat_csv, hw]

theorem C5_witness :
    concat_csv (.ok ([shardFileA] ++ [aggFileU])) users_aggregate users_header
        0 [1, 3] =
      concat_csv (.ok [shardFileA]) users_aggregate users_header 0 [1, 3] :=
  C5_idempotent [shardFileA] aggFileU users_aggregate users_header 0 [1, 3]
    (by decide)

/-- C6: `remove_csv_chars` deletes exactly the commas and double quotes of
its input (in particular on `abc,"31,ab",z"` it returns `abc31abz`), and
the encoded record line is the comma-join of the per-field sanitized
values: it contains no double quote and splits back on commas into exactly
the sanitized fields, preserving the field count. -/
theorem C6_encode (txt : Str) (cols : List Str) (hcols : cols ≠ []) :
    remove_csv_chars txt = txt.filter (fun ch => ch != ',' && ch != '"') ∧
    remove_csv_chars (sToL "abc,\"31,ab\",z\"") = sToL "abc31abz" ∧
    (∀ ch ∈ record_to_csv cols, ch ≠ '"') ∧
    splitComma (record_to_csv cols) = cols.map remove_csv_chars := by
  refine ⟨remove_csv_chars_eq_filter txt, by decide, ?_, ?_⟩
  · intro ch hch
    rcases mem_joinComma hch with hcomma | ⟨p, hp, hcp⟩
    · subst hcomma
      decide
    · rcases List.mem_map.mp hp with ⟨colp, _, rfl⟩
      exact (mem_remove_csv_chars hcp).2.2
  · apply splitComma_joinComma
    · simpa using hcols
    · intro p hp ch hch
      rcases List.mem_map.mp hp with ⟨colp, _, rfl⟩
      exact (mem_remove_csv_chars hch).2.1

theorem C6_witness :
    splitComma (record_to_csv
        [sToL "5", sToL "Title A", sToL "by1", sToL "http://x"]) =
      [sToL "5", sToL "Title A", sToL "by1", sToL "http://x"].map
        remove_csv_chars :=
  (C6_encode [] [sToL "5", sToL "Title A", sToL "by1", sToL "http://x"]
    (by decide)).2.2.2

/-- C7 counterexample: on a users aggregate file whose first line is the
header `ID,KARMA,CREATED,SUBMISSIONS`, `get_all_users` produces an entry
keyed `ID` — the header line is parsed as a data row — while the
header-skipping `get_all_users_full` keys only `alice`; `get_all_stories`
likewise keys the header's `TITLE`.  This refutes the claim that every
read mode parses only non-header lines. -/
theorem C7_counterexample :
    sToL "ID" ∈ (get_all_users usersAggLines).map Prod.fst ∧
    (get_all_users_full usersAggLines).map Prod.fst = [sToL "alice"] ∧
    sToL "TITLE" ∈ ((get_all_stories storiesAggLines).getD []).map Prod.fst :=
  ⟨by decide, by decide, by decide⟩

/-- C7 amended: `get_all_users_full` skips the header line, but
`get_all_users` and `get_all_stories` parse every line of the aggregate
file including the header; `get_all_users` maps every key (the line's
identity field) to itself. -/
theorem C7_amended_readers (lines : List Str) (h1 h2 : Str) :
    (∀ p ∈ get_all_users lines, p.2 = p.1) ∧
    (∀ x, x ∈ (get_all_users lines).map Prod.fst ↔
      x ∈ lines.map (fun l => (splitComma l).getD 0 [])) ∧
    get_all_users_full (h1 :: lines) = get_all_users_full (h2 :: lines) ∧
    (∀ st, get_all_stories lines = some st →
      ∀ x, x ∈ st.map Prod.fst ↔
        x ∈ lines.filterMap (fun l => (splitComma l).get? 1)) := by
  refine ⟨users_fold_self_map lines [] (by simp), ?_, rfl, ?_⟩
  · intro x
    have h := mem_map_fst_users_fold lines [] x
    simpa [get_all_users] using h
  · intro st hst x
    have h := stories_fold_some_mem lines [] st hst x
    simpa [get_all_stories] using h

theorem C7_amended_witness :
    sToL "alice" ∈ (get_all_users usersAggLines).map Prod.fst :=
  ((C7_amended_readers usersAggLines [] []).2.1 (sToL "alice")).mpr (by decide)

/-- C8: when the filesystem walk fails with an I/O error, `concat_csv`
raises `CsvIoError` wrapping the original failure message and returns no
output content — the merge aborts before any output file is written. -/
theorem C8_walk_failure (e out header : Str) (c : Nat) (v : List Nat) :
    concat_csv (.error e) out header c v = .error (.csvIoError e) ∧
    ∀ content n, concat_csv (.error e) out header c v ≠ .ok (content, n) := by
  refine ⟨rfl, fun content n h => ?_⟩
  simp [concat_csv] at h

theorem C8_witness :
    concat_csv (.error (sToL "unreadable root")) users_aggregate users_header
        0 [1, 3] =
      .error (.csvIoError (sToL "unreadable root")) :=
  (C8_walk_failure (sToL "unreadable root") users_aggregate users_header
    0 [1, 3]).1

/-- C9: if any shard data line, stripped and split on commas, has no column
at the configured identity index, the merge propagates the index error and
aborts — the whole run fails instead of skipping the line. -/
theorem C9_malformed_aborts (c : Nat) (v : List Nat) (files : List (List Str))
    (out header : Str) (fs : List CsvFile)
    (hbad : ∃ f ∈ files, ∃ l ∈ f.drop 1, (splitComma (pyStrip l)).length ≤ c)
    (hfs : (recursive_walk fs).map CsvFile.lines = files) :
    merge_table c v files = .error .indexError ∧
    concat_csv (.ok fs) out header c v = .error .indexError := by
  have hmerge : merge_table c v files = .error .indexError := by
    apply merge_table_err
    intro hall
    rcases hbad with ⟨f, hf, l, hl, hlen⟩
    have hg := hall f hf l hl
    unfold good_line at hg
    omega
  refine ⟨hmerge, ?_⟩
  simp [concat_csv, hfs, hmerge]

theorem C9_witness :
    merge_table 3 [0, 1] [badStoriesFile] = .error .indexError :=
  (C9_malformed_aborts 3 [0, 1] [badStoriesFile] stories_aggregate
    stories_header badShardFS (by decide) (by decide)).1

/-- C10: with the users configuration (identity index 0, volatile 1 and 3)
the identity lookup can never raise: splitting any stripped line on commas
yields at least one column, so the merge always succeeds and every data
line's key — even that of an empty or column-deficient line — lands in the
aggregate table. -/
theorem C10_users_identity_safe (files : List (List Str)) :
    ∃ t, merge_table 0 [1, 3] files = .ok t ∧
      ∀ f ∈ files, ∀ l ∈ f.drop 1, key_of 0 [1, 3] l ∈ t.map Prod.fst := by
  have hall : all_good 0 files := by
    intro f hf l hl
    exact splitComma_length_pos _
  refine ⟨_, merge_table_ok 0 [1, 3] files hall, ?_⟩
  intro f hf l hl
  rw [mem_map_fst_table_fold]
  right
  exact List.mem_map.mpr ⟨l, List.mem_flatMap.mpr ⟨f, hf, hl⟩, rfl⟩

theorem C10_witness :
    ∃ t, merge_table 0 [1, 3] [fileA] = .ok t ∧
      ∀ f ∈ [fileA], ∀ l ∈ f.drop 1, key_of 0 [1, 3] l ∈ t.map Prod.fst :=
  C10_users_identity_safe [fileA]

end CsvCore
